import Mathlib

/-! Shallow embedding of the claude-conversation-vectordb pipeline:
`conversation_downloader.py` (normalizer, directory import),
`vector_store.py` (chunker, store wrapper, search) and `cli.py`
(search result formatting).  The ChromaDB backend and the sentence-transformer
embedding model are external collaborators; they are modelled from their
narrow contracts (upsert by id, k-nearest-neighbour query ranked by ascending
distance, record count, collection deletion), with the embedding and distance
functions kept abstract as parameters. -/

namespace ConvVecDB

/-- A normalized message, as produced by
`ConversationImporter._normalize_conversations`: all three fields are strings
(structured content has already been flattened to a single string). -/
structure Message where
  role : String
  content : String
  timestamp : String
deriving Repr, DecidableEq

/-- A normalized conversation: `id`, `created_at`, `title`, `messages`. -/
structure Conversation where
  id : String
  created_at : String
  title : String
  messages : List Message
deriving Repr, DecidableEq

/-- A chunk as built in the loop body of
`ConversationVectorStore.chunk_conversation`. -/
structure Chunk where
  text : String
  conversation_id : String
  conversation_title : String
  created_at : String
  chunk_index : Nat
  message_start_idx : Nat
  message_end_idx : Nat
  messages : List Message
deriving Repr, DecidableEq

/-- Python `str.capitalize()`: first character upper-cased, the remaining
characters lower-cased. -/
def pyCapitalize (s : String) : String :=
  match s.data with
  | [] => s
  | c :: cs => String.mk (c.toUpper :: cs.map Char.toLower)

/-- One line of the chunk text: the capitalized role, a colon and a space,
then the content. -/
def renderMsg (m : Message) : String :=
  pyCapitalize m.role ++ ": " ++ m.content

/-- Chunk text: the rendered messages joined by a blank line. -/
def chunkText (msgs : List Message) : String :=
  String.intercalate "\n\n" (msgs.map renderMsg)

/-- Python `range(0, stop, step)` for `step > 0`:
the indices `0, step, 2*step, ...` strictly below `stop`. -/
def pyRange (stop step : Nat) : List Nat :=
  List.range' 0 ((stop + step - 1) / step) step

/-- The chunk dictionary built for the window starting at message index `i`;
`idx` is `len(chunks)` at the moment of appending. -/
def mkChunk (conv : Conversation) (chunk_messages : List Message) (idx i : Nat) : Chunk :=
  { text := chunkText chunk_messages
    conversation_id := conv.id
    conversation_title := conv.title
    created_at := conv.created_at
    chunk_index := idx
    message_start_idx := i
    message_end_idx := i + chunk_messages.length
    messages := chunk_messages }

/-- The for-loop of `chunk_conversation`, iterating over the Python range index
list, with `continue` on an empty slice and `break` once the window end reaches
the message count. -/
def chunkLoop (conv : Conversation) (msgs : List Message) (chunk_size : Nat) :
    List Nat → List Chunk → List Chunk
  | [], acc => acc
  | i :: rest, acc =>
    let chunk_messages := (msgs.drop i).take chunk_size
    if chunk_messages.isEmpty then
      chunkLoop conv msgs chunk_size rest acc
    else
      let acc' := acc ++ [mkChunk conv chunk_messages acc.length i]
      if msgs.length ≤ i + chunk_size then acc'
      else chunkLoop conv msgs chunk_size rest acc'

/-- The function `chunk_conversation` specialised to a positive window stride
`chunk_size - overlap`. -/
def chunkRun (conv : Conversation) (chunk_size overlap : Nat) : List Chunk :=
  chunkLoop conv conv.messages chunk_size
    (pyRange conv.messages.length (chunk_size - overlap)) []

/-- Model of `ConversationVectorStore.chunk_conversation`.  `Except.error` models a
raised Python exception: `range(0, n, 0)` raises `ValueError` when the stride
`chunk_size - overlap` is zero (before any iteration, so also on an empty
message list); a negative stride makes the range empty. -/
def chunk_conversation (conv : Conversation) (chunk_size : Nat := 3)
    (overlap : Nat := 1) : Except String (List Chunk) :=
  if chunk_size = overlap then Except.error "range() arg 3 must not be zero"
  else if chunk_size < overlap then Except.ok []
  else Except.ok (chunkRun conv chunk_size overlap)

/-! ### Characterization of the chunker loop

`chunkSpec` is a recursive description of the chunks the loop produces from
window start `i` onwards when the stride `s` is positive; it is only a proof
device, the executable model stays `chunk_conversation`. -/

/-- The chunks produced from window start `i` on, `idx` being the running
`chunk_index`. -/
def chunkSpec (conv : Conversation) (msgs : List Message) (c s i idx : Nat) :
    List Chunk :=
  if h : 0 < s ∧ i < msgs.length then
    mkChunk conv ((msgs.drop i).take c) idx i ::
      (if msgs.length ≤ i + c then [] else chunkSpec conv msgs c s (i + s) (idx + 1))
  else []
termination_by msgs.length - i
decreasing_by omega

/-! ### JSON codec for the serialized message slice

The function `add_conversations` stores the JSON dump of the chunk message
slice in the record metadata and `search` recovers it with a JSON parse.  The
Python `json` module is modelled here restricted to the values this pipeline
writes: a JSON array of objects with exactly the string fields `role`,
`content`, `timestamp`, in that insertion order, rendered with the default
separators of `json.dumps`.  The
encoder uses the standard short escapes and `\u00XX` for other control
characters; unlike `ensure_ascii=True` it leaves non-ASCII characters
verbatim, which does not affect the parse/serialize round trip. -/

/-- Lowercase hexadecimal digit. -/
def hexDigitChar (n : Nat) : Char :=
  if n < 10 then Char.ofNat (48 + n) else Char.ofNat (87 + n)

/-- JSON string escaping of one character. -/
def escapeChar (ch : Char) : List Char :=
  if ch = '"' then ['\\', '"']
  else if ch = '\\' then ['\\', '\\']
  else if ch = '\n' then ['\\', 'n']
  else if ch = '\t' then ['\\', 't']
  else if ch = '\r' then ['\\', 'r']
  else if ch.toNat = 8 then ['\\', 'b']
  else if ch.toNat = 12 then ['\\', 'f']
  else if ch.toNat < 32 then
    ['\\', 'u', '0', '0', hexDigitChar (ch.toNat / 16), hexDigitChar (ch.toNat % 16)]
  else [ch]

/-- A JSON string literal: quoted and escaped. -/
def encodeStringCore (cs : List Char) : List Char :=
  '"' :: (cs.map escapeChar).flatten ++ ['"']

/-- One message object, with the keys in dict insertion order. -/
def encodeMessageCore (m : Message) : List Char :=
  '\x7b' :: "\"role\": ".data ++ encodeStringCore m.role.data ++
    ", \"content\": ".data ++ encodeStringCore m.content.data ++
    ", \"timestamp\": ".data ++ encodeStringCore m.timestamp.data ++ ['\x7d']

/-- The remaining array items, each preceded by the `", "` separator, then the
closing bracket. -/
def encodeItemsCore : List Message → List Char
  | [] => [']']
  | m :: rest => ',' :: ' ' :: (encodeMessageCore m ++ encodeItemsCore rest)

/-- The full JSON array. -/
def encodeMessagesCore : List Message → List Char
  | [] => '[' :: [']']
  | m :: rest => '[' :: (encodeMessageCore m ++ encodeItemsCore rest)

/-- The JSON dump of a normalized message slice. -/
def json_dumps_messages (ms : List Message) : String :=
  String.mk (encodeMessagesCore ms)

/-- Value of a hexadecimal digit character. -/
def hexVal (ch : Char) : Option Nat :=
  if 48 ≤ ch.toNat ∧ ch.toNat ≤ 57 then some (ch.toNat - 48)
  else if 97 ≤ ch.toNat ∧ ch.toNat ≤ 102 then some (ch.toNat - 87)
  else if 65 ≤ ch.toNat ∧ ch.toNat ≤ 70 then some (ch.toNat - 55)
  else none

/-- Value of a four-digit hexadecimal escape. -/
def hex4 (a b c d : Char) : Option Nat := do
  let x ← hexVal a
  let y ← hexVal b
  let z ← hexVal c
  let w ← hexVal d
  some (((x * 16 + y) * 16 + z) * 16 + w)

/-- JSON string body after the opening quote: the decoded characters and the
input remaining after the closing quote. -/
def parseStringBody : List Char → Option (List Char × List Char)
  | [] => none
  | ch :: rest =>
    if ch = '"' then some ([], rest)
    else if ch = '\\' then
      match rest with
      | [] => none
      | e :: rest2 =>
        if e = '"' then (parseStringBody rest2).map (fun p => ('"' :: p.1, p.2))
        else if e = '\\' then (parseStringBody rest2).map (fun p => ('\\' :: p.1, p.2))
        else if e = '/' then (parseStringBody rest2).map (fun p => ('/' :: p.1, p.2))
        else if e = 'n' then (parseStringBody rest2).map (fun p => ('\n' :: p.1, p.2))
        else if e = 't' then (parseStringBody rest2).map (fun p => ('\t' :: p.1, p.2))
        else if e = 'r' then (parseStringBody rest2).map (fun p => ('\r' :: p.1, p.2))
        else if e = 'b' then
          (parseStringBody rest2).map (fun p => (Char.ofNat 8 :: p.1, p.2))
        else if e = 'f' then
          (parseStringBody rest2).map (fun p => (Char.ofNat 12 :: p.1, p.2))
        else if e = 'u' then
          match rest2 with
          | h1 :: h2 :: h3 :: h4 :: rest3 =>
            match hex4 h1 h2 h3 h4 with
            | some n =>
              (parseStringBody rest3).map (fun p => (Char.ofNat n :: p.1, p.2))
            | none => none
          | _ => none
        else none
    else (parseStringBody rest).map (fun p => (ch :: p.1, p.2))

/-- A quoted JSON string. -/
def parseJString : List Char → Option (List Char × List Char)
  | [] => none
  | c :: rest => if c = '"' then parseStringBody rest else none

/-- Consume an expected literal character sequence. -/
def expectChars : List Char → List Char → Option (List Char)
  | [], s => some s
  | c :: cs, d :: ds => if d = c then expectChars cs ds else none
  | _ :: _, [] => none

/-- One message object of the shape this pipeline writes. -/
def parseMessageCore (s : List Char) : Option (Message × List Char) := do
  let s1 ← expectChars ('\x7b' :: "\"role\": ".data) s
  let (r, s2) ← parseJString s1
  let s3 ← expectChars ", \"content\": ".data s2
  let (co, s4) ← parseJString s3
  let s5 ← expectChars ", \"timestamp\": ".data s4
  let (t, s6) ← parseJString s5
  let s7 ← expectChars ['\x7d'] s6
  some (⟨String.mk r, String.mk co, String.mk t⟩, s7)

/-- Remaining array items after the first; the fuel bounds the item count by
the input length. -/
def parseItems : Nat → List Char → Option (List Message × List Char)
  | 0, _ => none
  | fuel + 1, s =>
    match s with
    | ']' :: rest => some ([], rest)
    | ',' :: ' ' :: rest => do
      let (m, s1) ← parseMessageCore rest
      let (ms, s2) ← parseItems fuel s1
      some (m :: ms, s2)
    | _ => none

/-- The full JSON array; the whole input must be consumed. -/
def parseMessagesCore (s : List Char) : Option (List Message) :=
  if s = ['[', ']'] then some []
  else
    match s with
    | '[' :: rest => do
      let (m, s1) ← parseMessageCore rest
      let (ms, s2) ← parseItems (s1.length + 1) s1
      if s2 = [] then some (m :: ms) else none
    | _ => none

/-- The JSON parse of a serialized message slice; `none` models a raised
decode error. -/
def json_loads_messages (s : String) : Option (List Message) :=
  parseMessagesCore s.data

/-! ### Store model

The ChromaDB collection is modelled from the backend contract consumed by
`vector_store.py` (spec section 6): upsert by id with (vector, document,
metadata), nearest-neighbour query returning records ranked by ascending
distance, record count, and collection deletion.  The embedding model and
the vector distance are abstract parameters `embed` and `dist`. -/

/-- The metadata dict built in `add_conversations`. -/
structure RecordMetadata where
  conversation_id : String
  conversation_title : String
  created_at : String
  chunk_index : Nat
  message_start_idx : Nat
  message_end_idx : Nat
  full_chunk_data : String
deriving Repr, DecidableEq

/-- One stored record of the collection. -/
structure StoredRecord where
  id : String
  embedding : List ℚ
  document : String
  metadata : RecordMetadata
deriving Repr, DecidableEq

/-- A ChromaDB collection: the multiset of stored records. -/
structure Collection where
  records : List StoredRecord
deriving Repr, DecidableEq

/-- Upsert of a single record: a colliding id overwrites the prior record,
otherwise the record is appended. -/
def upsertOne (records : List StoredRecord) (r : StoredRecord) : List StoredRecord :=
  if records.any (fun s => s.id = r.id) then
    records.map (fun s => if s.id = r.id then r else s)
  else records ++ [r]

/-- Model of `collection.add` over a batch of records (upsert by id). -/
def Collection.upsert (col : Collection) (recs : List StoredRecord) : Collection :=
  ⟨recs.foldl upsertOne col.records⟩

/-- Model of the collection record count. -/
def Collection.count (col : Collection) : Nat := col.records.length

/-- Model of `collection.query`: every record ranked by ascending distance to
the query vector, truncated to `n_results`. -/
def Collection.query (dist : List ℚ → List ℚ → ℚ) (col : Collection)
    (qvec : List ℚ) (k : Nat) : List (StoredRecord × ℚ) :=
  ((col.records.map (fun r => (r, dist qvec r.embedding))).insertionSort
    (fun a b => a.2 ≤ b.2)).take k

/-- Model of `ConversationVectorStore`: a named persistent collection. -/
structure VectorStore where
  db_path : String
  collection_name : String
  collection : Collection
deriving Repr, DecidableEq

/-- The record built for one chunk: deterministic id
`conversation_id ++ "_chunk_" ++ chunk_index`, the embedded text as document,
and the metadata with the serialized message slice. -/
def chunkRecord (embed : String → List ℚ) (ch : Chunk) : StoredRecord :=
  { id := ch.conversation_id ++ "_chunk_" ++ toString ch.chunk_index
    embedding := embed ch.text
    document := ch.text
    metadata :=
      { conversation_id := ch.conversation_id
        conversation_title := ch.conversation_title
        created_at := ch.created_at
        chunk_index := ch.chunk_index
        message_start_idx := ch.message_start_idx
        message_end_idx := ch.message_end_idx
        full_chunk_data := json_dumps_messages ch.messages } }

/-- Model of `add_conversations`: chunk every conversation with the default parameters
`chunk_size=3`, `overlap=1`, embed the chunk texts and upsert the records;
returns the store and the number of chunks added.  The batching of the
embedding calls (batch_size, default 100) only bounds memory and does not
change the records written, so it is not modelled. -/
def add_conversations (embed : String → List ℚ) (store : VectorStore)
    (conversations : List Conversation) : VectorStore × Nat :=
  let all_chunks := (conversations.map (fun conv => chunkRun conv 3 1)).flatten
  let recs := all_chunks.map (chunkRecord embed)
  ({ store with collection := store.collection.upsert recs }, all_chunks.length)

/-- One formatted search result. -/
structure SearchResult where
  text : String
  conversation_id : String
  conversation_title : String
  created_at : String
  distance : ℚ
  messages : Option (List Message)
deriving Repr, DecidableEq

/-- Model of `ConversationVectorStore.search`: embed the query, query the collection,
format each returned record (deserializing the message slice from
`full_chunk_data`). -/
def search (embed : String → List ℚ) (dist : List ℚ → List ℚ → ℚ)
    (store : VectorStore) (query : String) (n_results : Nat := 5) :
    List SearchResult :=
  (store.collection.query dist (embed query) n_results).map (fun rd =>
    { text := rd.1.document
      conversation_id := rd.1.metadata.conversation_id
      conversation_title := rd.1.metadata.conversation_title
      created_at := rd.1.metadata.created_at
      distance := rd.2
      messages := json_loads_messages rd.1.metadata.full_chunk_data })

/-- The dict returned by `get_stats`. -/
structure Stats where
  total_chunks : Nat
  collection_name : String
  db_path : String
deriving Repr, DecidableEq

/-- Model of `ConversationVectorStore.get_stats`. -/
def get_stats (store : VectorStore) : Stats :=
  { total_chunks := store.collection.count
    collection_name := store.collection_name
    db_path := store.db_path }

/-- Model of `ConversationVectorStore.reset`: delete the collection and recreate it
empty under the same name. -/
def reset (store : VectorStore) : VectorStore :=
  { store with collection := ⟨[]⟩ }

/-- The relevance score printed by `cli.py cmd_search`: `1 - distance`. -/
def relevanceScore (r : SearchResult) : ℚ := 1 - r.distance

/-! ### Normalizer model (`conversation_downloader.py`)

Raw conversations and messages are Python dicts; each looked-up key is
modelled as an optional field (`none` = key absent), so `dict.get(k, d)`
becomes `Option.getD`.  Message content may be a plain string or a list of
content blocks (Claude API format). -/

/-- One element of a structured content list: a dict with a `type` tag and an
optional `text` field, a bare string, or anything else (dropped). -/
inductive ContentBlock where
  | obj (ty : String) (text : Option String)
  | str (s : String)
  | other
deriving Repr, DecidableEq

/-- The value found under the `content` key. -/
inductive RawContent where
  | str (s : String)
  | blocks (bs : List ContentBlock)
deriving Repr, DecidableEq

/-- A raw message dict, keyed fields only. -/
structure RawMessage where
  role : Option String
  sender : Option String
  content : Option RawContent
  text : Option String
  timestamp : Option String
  created_at : Option String
deriving Repr, DecidableEq

/-- A raw conversation dict, keyed fields only. -/
structure RawConversation where
  id : Option String
  created_at : Option String
  timestamp : Option String
  title : Option String
  name : Option String
  messages : Option (List RawMessage)
  chat_messages : Option (List RawMessage)
deriving Repr, DecidableEq

/-- Text parts extracted from one content block: a dict block tagged
`type == "text"` contributes its `text` (default empty), a bare string
contributes itself, anything else is dropped. -/
def blockParts : ContentBlock → List String
  | .obj ty t => if ty = "text" then [t.getD ""] else []
  | .str s => [s]
  | .other => []

/-- Flattening of a structured content list, joined by newline. -/
def flattenBlocks (bs : List ContentBlock) : String :=
  String.intercalate "\n" (bs.map blockParts).flatten

/-- The content lookup: the content field when present, else the text field,
else the empty string; flattened when structured. -/
def rawMessageContent (m : RawMessage) : String :=
  match m.content with
  | some (.str s) => s
  | some (.blocks bs) => flattenBlocks bs
  | none => m.text.getD ""

/-- Normalization of one message. -/
def normalizeMessage (m : RawMessage) : Message :=
  { role := m.role.getD (m.sender.getD "unknown")
    content := rawMessageContent m
    timestamp := m.timestamp.getD (m.created_at.getD "") }

/-- Normalization of one conversation at position `idx`; `now_ts` and
`now_iso` stand for `datetime.now().timestamp()` and
`datetime.now().isoformat()`. -/
def normalizeConversation (now_ts now_iso : String) (idx : Nat)
    (c : RawConversation) : Conversation :=
  { id := c.id.getD ("conv_" ++ toString idx ++ "_" ++ now_ts)
    created_at := c.created_at.getD (c.timestamp.getD now_iso)
    title := c.title.getD (c.name.getD ("Conversation " ++ toString (idx + 1)))
    messages := (c.messages.getD (c.chat_messages.getD [])).map normalizeMessage }

/-- Model of `ConversationImporter._normalize_conversations`. -/
def normalize_conversations (now_ts now_iso : String)
    (raws : List RawConversation) : List Conversation :=
  raws.enum.map (fun p => normalizeConversation now_ts now_iso p.1 p.2)

/-- The parsed top-level JSON shapes `import_from_json_export` resolves:
a top-level array, a dict with a `conversations` key, or a single object. -/
inductive FileData where
  | list (convos : List RawConversation)
  | dict (convos : List RawConversation)
  | single (convo : RawConversation)
deriving Repr, DecidableEq

/-- Conversation list resolution from the top-level JSON shape. -/
def FileData.resolve : FileData → List RawConversation
  | .list cs => cs
  | .dict cs => cs
  | .single c => [c]

/-- Model of `import_from_json_export` on the parse outcome of one file;
`Except.error` models an exception raised while reading, JSON-parsing or
normalizing that file. -/
def fromJsonExport (now_ts now_iso : String) (file : Except String FileData) :
    Except String (List Conversation) :=
  match file with
  | .error e => .error e
  | .ok fd => .ok (normalize_conversations now_ts now_iso fd.resolve)

/-- Model of `import_from_directory`: the globbed files in order; a failing file is
logged and skipped, the remaining files still import. -/
def fromDirectory (now_ts now_iso : String)
    (files : List (Except String FileData)) : List Conversation :=
  files.foldl (fun acc file =>
    match fromJsonExport now_ts now_iso file with
    | .ok convos => acc ++ convos
    | .error _ => acc) []

/-! ### Concrete demonstration values for witnesses and counterexamples -/

/-- A five-message conversation. -/
def demoConv5 : Conversation :=
  ⟨"conv5", "2024-01-01T00:00:00Z", "Demo",
    [⟨"user", "m0", "t0"⟩, ⟨"assistant", "m1", "t1"⟩, ⟨"user", "m2", "t2"⟩,
     ⟨"assistant", "m3", "t3"⟩, ⟨"user", "m4", "t4"⟩]⟩

/-- A one-message conversation. -/
def convOneMsg : Conversation :=
  ⟨"c1", "2024-01-01T00:00:00Z", "T", [⟨"user", "hi", "t0"⟩]⟩

/-- The normalization scenario input of the specification: a raw conversation
whose only present fields are the name, Chat A, and one chat message whose
sender is human and whose text is hi. -/
def rawChatA : RawConversation :=
  ⟨none, none, none, none, some "Chat A", none,
    some [⟨none, some "human", none, some "hi", none, none⟩]⟩

/-- A degenerate embedding model for concrete witnesses. -/
def demoEmbed : String → List ℚ := fun _ => []

/-- A degenerate distance for concrete witnesses. -/
def demoDist : List ℚ → List ℚ → ℚ := fun _ _ => 0

/-- A store opened on an empty collection. -/
def emptyStore : VectorStore := ⟨"./chroma_db", "claude_conversations", ⟨[]⟩⟩

theorem chunkLoop_eq_chunkSpec (conv : Conversation) (msgs : List Message)
    (c s : Nat) (hs : 0 < s) (hc : 0 < c) :
    ∀ (k i : Nat) (acc : List Chunk), msgs.length ≤ i + k * s →
      chunkLoop conv msgs c (List.range' i k s) acc =
        acc ++ chunkSpec conv msgs c s i acc.length := by
  intro k
  induction k with
  | zero =>
    intro i acc hcov
    have hi : ¬ i < msgs.length := by omega
    rw [chunkSpec, dif_neg (by omega)]
    simp [chunkLoop, List.range']
  | succ k ih =>
    intro i acc hcov
    rw [List.range'_succ]
    by_cases hi : i < msgs.length
    · have hne : ((msgs.drop i).take c).isEmpty = false := by
        have : ((msgs.drop i).take c).length = min c (msgs.length - i) := by
          simp [List.length_take]
        rcases hE : (msgs.drop i).take c with _ | _
        · rw [hE] at this; simp at this; omega
        · rfl
      rw [chunkLoop, hne]
      simp only [Bool.false_eq_true, if_false]
      rw [chunkSpec, dif_pos ⟨hs, hi⟩]
      by_cases hbreak : msgs.length ≤ i + c
      · rw [if_pos hbreak, if_pos hbreak]
      · rw [if_neg hbreak, if_neg hbreak]
        have hcov2 : msgs.length ≤ i + s + k * s := by
          rw [Nat.succ_mul] at hcov; omega
        rw [ih (i + s) (acc ++ [mkChunk conv ((msgs.drop i).take c) acc.length i]) hcov2]
        simp
    · have hnil : (msgs.drop i).take c = [] := by
        rw [List.drop_eq_nil_of_le (by omega)]; simp
      rw [chunkLoop, hnil]
      simp only [List.isEmpty_nil, if_true]
      have hcov2 : msgs.length ≤ i + s + k * s := by omega
      rw [ih (i + s) acc hcov2]
      rw [chunkSpec, dif_neg (by omega), chunkSpec, dif_neg (by omega)]

theorem chunkRun_eq_chunkSpec (conv : Conversation) (c o : Nat) (h : o < c) :
    chunkRun conv c o = chunkSpec conv conv.messages c (c - o) 0 0 := by
  have hs : 0 < c - o := by omega
  unfold chunkRun pyRange
  have h1 : conv.messages.length + (c - o) - 1 <
      (conv.messages.length + (c - o) - 1) / (c - o) * (c - o) + (c - o) :=
    Nat.lt_div_mul_add hs
  have hcov : conv.messages.length ≤
      0 + (conv.messages.length + (c - o) - 1) / (c - o) * (c - o) := by omega
  have := chunkLoop_eq_chunkSpec conv conv.messages c (c - o) hs (by omega)
    ((conv.messages.length + (c - o) - 1) / (c - o)) 0 [] hcov
  simpa using this

theorem chunk_conversation_eq_chunkSpec (conv : Conversation) (c o : Nat)
    (h : o < c) :
    chunk_conversation conv c o =
      Except.ok (chunkSpec conv conv.messages c (c - o) 0 0) := by
  unfold chunk_conversation
  rw [if_neg (by omega), if_neg (by omega), chunkRun_eq_chunkSpec conv c o h]

theorem chunkSpec_length (conv : Conversation) (msgs : List Message) (c s : Nat)
    (hs : 0 < s) (hsc : s ≤ c) :
    ∀ i idx, (chunkSpec conv msgs c s i idx).length =
      if i < msgs.length then
        (if msgs.length ≤ i + c then 1
         else (msgs.length - c - i + s - 1) / s + 1)
      else 0 := by
  intro i idx
  induction i, idx using chunkSpec.induct conv msgs c s with
  | case1 i idx h ih =>
    rw [chunkSpec, dif_pos h]
    by_cases hbreak : msgs.length ≤ i + c
    · simp [hbreak, h.2]
    · rw [if_neg hbreak, List.length_cons, ih, if_pos h.2, if_neg hbreak]
      have hin : i + s < msgs.length := by omega
      rw [if_pos hin]
      by_cases h2 : msgs.length ≤ i + s + c
      · rw [if_pos h2]
        have hone : (msgs.length - c - i + s - 1) / s = 1 := by
          have hlo : 1 * s ≤ msgs.length - c - i + s - 1 := by omega
          have hhi : msgs.length - c - i + s - 1 < 2 * s := by
            have := h.2; omega
          have := Nat.div_eq_of_lt_le hlo hhi
          omega
        omega
      · rw [if_neg h2]
        have key : (msgs.length - c - i - 1 + s) / s =
            (msgs.length - c - i - 1) / s + 1 := Nat.add_div_right _ hs
        have e1 : msgs.length - c - i + s - 1 = msgs.length - c - i - 1 + s := by
          omega
        have e2 : msgs.length - c - (i + s) + s - 1 = msgs.length - c - i - 1 := by
          omega
        rw [e1, e2, key]
  | case2 i idx h =>
    rw [chunkSpec, dif_neg h]
    have : ¬ i < msgs.length := by omega
    simp [this]

theorem chunkSpec_get (conv : Conversation) (msgs : List Message) (c s : Nat)
    (hs : 0 < s) :
    ∀ i idx j (hj : j < (chunkSpec conv msgs c s i idx).length),
      (chunkSpec conv msgs c s i idx).get ⟨j, hj⟩ =
        mkChunk conv ((msgs.drop (i + j * s)).take c) (idx + j) (i + j * s) ∧
      i + j * s < msgs.length := by
  intro i idx
  induction i, idx using chunkSpec.induct conv msgs c s with
  | case1 i idx h ih =>
    intro j hj
    by_cases hbreak : msgs.length ≤ i + c
    · have hcons : chunkSpec conv msgs c s i idx =
          [mkChunk conv ((msgs.drop i).take c) idx i] := by
        rw [chunkSpec, dif_pos h, if_pos hbreak]
      have hl : (chunkSpec conv msgs c s i idx).length = 1 := by rw [hcons]; rfl
      have hj0 : j = 0 := by omega
      subst hj0
      rw [List.get_of_eq hcons ⟨0, hj⟩]
      exact ⟨by simp [List.get], by omega⟩
    · have hcons : chunkSpec conv msgs c s i idx =
          mkChunk conv ((msgs.drop i).take c) idx i ::
            chunkSpec conv msgs c s (i + s) (idx + 1) := by
        rw [chunkSpec, dif_pos h, if_neg hbreak]
      rw [List.get_of_eq hcons ⟨j, hj⟩]
      match j with
      | 0 => exact ⟨by simp [List.get], by omega⟩
      | j' + 1 =>
        have hj' : j' < (chunkSpec conv msgs c s (i + s) (idx + 1)).length := by
          have := hj; rw [hcons] at this; simpa using this
        obtain ⟨e, hb⟩ := ih j' hj'
        have harg : i + s + j' * s = i + (j' + 1) * s := by
          rw [Nat.succ_mul]; omega
        have harg2 : idx + 1 + j' = idx + (j' + 1) := by omega
        constructor
        · show (chunkSpec conv msgs c s (i + s) (idx + 1)).get ⟨j', _⟩ = _
          rw [e, harg, harg2]
        · omega
  | case2 i idx h =>
    intro j hj
    rw [chunkSpec, dif_neg h] at hj
    simp at hj

/-- Ceiling division over `ℚ` agrees with the natural-number expression
`(x + s - 1) / s`. -/
theorem ceil_ratCast_div (x s : Nat) (hs : 0 < s) :
    ⌈(x : ℚ) / (s : ℚ)⌉ = (((x + s - 1) / s : Nat) : ℤ) := by
  have hq : (0 : ℚ) < (s : ℚ) := by exact_mod_cast hs
  obtain ⟨q, hqdef⟩ : ∃ q, q = (x + s - 1) / s := ⟨_, rfl⟩
  rw [← hqdef]
  have h1 : x ≤ q * s := by
    rw [hqdef]
    have := Nat.lt_div_mul_add (a := x + s - 1) hs
    omega
  have h2 : q * s + 1 ≤ x + s := by
    rw [hqdef]
    have := Nat.div_mul_le_self (x + s - 1) s
    omega
  have hc1 : (q : ℚ) * (s : ℚ) + 1 ≤ (x : ℚ) + (s : ℚ) := by exact_mod_cast h2
  have hc2 : (x : ℚ) ≤ (q : ℚ) * (s : ℚ) := by exact_mod_cast h1
  rw [Int.ceil_eq_iff]
  constructor
  · push_cast
    rw [lt_div_iff₀ hq]
    linarith
  · push_cast
    rw [div_le_iff₀ hq]
    exact hc2

/-- The chunk list of `chunk_conversation` for a valid stride, together with
its length and an exact description of every chunk. -/
theorem chunk_conversation_spec (conv : Conversation) (c o : Nat) (h2 : o < c) :
    ∃ chunks, chunk_conversation conv c o = Except.ok chunks ∧
      chunks.length =
        (if conv.messages.length = 0 then 0
         else if conv.messages.length ≤ c then 1
         else (conv.messages.length - c + (c - o) - 1) / (c - o) + 1) ∧
      ∀ j (hj : j < chunks.length),
        chunks.get ⟨j, hj⟩ =
          mkChunk conv ((conv.messages.drop (j * (c - o))).take c) j (j * (c - o)) ∧
        j * (c - o) < conv.messages.length := by
  refine ⟨chunkSpec conv conv.messages c (c - o) 0 0,
    chunk_conversation_eq_chunkSpec conv c o h2, ?_, ?_⟩
  · rw [chunkSpec_length conv conv.messages c (c - o) (by omega) (by omega) 0 0]
    by_cases h0 : conv.messages.length = 0
    · simp [h0]
    · rw [if_pos (by omega), if_neg h0]
      by_cases hc : conv.messages.length ≤ c
      · rw [if_pos (by omega), if_pos hc]
      · rw [if_neg (by omega), if_neg hc, Nat.sub_zero]
  · intro j hj
    have := chunkSpec_get conv conv.messages c (c - o) (by omega) 0 0 j hj
    simpa using this

/-- C1 (corrected): with valid parameters `0 < overlap < chunk_size`,
`chunk_conversation` returns `0` chunks when `n = 0` and
`⌈(n - overlap) / (chunk_size - overlap)⌉` chunks when `n > overlap`; but when
`0 < n ≤ overlap` it returns exactly `1` chunk, not the `≤ 0` chunks the
claimed formula gives there. -/
theorem chunk_count_amended (conv : Conversation) (chunk_size overlap : Nat)
    (h1 : 0 < overlap) (h2 : overlap < chunk_size) :
    ∃ chunks, chunk_conversation conv chunk_size overlap = Except.ok chunks ∧
      (conv.messages.length = 0 → chunks.length = 0) ∧
      (0 < conv.messages.length → conv.messages.length ≤ overlap →
        chunks.length = 1) ∧
      (overlap < conv.messages.length →
        (chunks.length : ℤ) =
          ⌈((conv.messages.length : ℚ) - (overlap : ℚ)) /
            ((chunk_size : ℚ) - (overlap : ℚ))⌉) := by
  obtain ⟨chunks, hok, hlen, hget⟩ := chunk_conversation_spec conv chunk_size overlap h2
  refine ⟨chunks, hok, ?_, ?_, ?_⟩
  · intro h0
    rw [hlen, if_pos h0]
  · intro hp hle
    rw [hlen, if_neg (by omega), if_pos (by omega)]
  · intro hlt
    have e1 : (conv.messages.length : ℚ) - (overlap : ℚ) =
        ((conv.messages.length - overlap : Nat) : ℚ) := by
      rw [Nat.cast_sub (by omega)]
    have e2 : (chunk_size : ℚ) - (overlap : ℚ) =
        ((chunk_size - overlap : Nat) : ℚ) := by
      rw [Nat.cast_sub (by omega)]
    rw [e1, e2, ceil_ratCast_div _ _ (by omega)]
    norm_cast
    rw [hlen, if_neg (by omega)]
    by_cases hc : conv.messages.length ≤ chunk_size
    · rw [if_pos hc]
      have hlo : 1 * (chunk_size - overlap) ≤
          conv.messages.length - overlap + (chunk_size - overlap) - 1 := by omega
      have hhi : conv.messages.length - overlap + (chunk_size - overlap) - 1 <
          2 * (chunk_size - overlap) := by omega
      have := Nat.div_eq_of_lt_le hlo hhi
      omega
    · rw [if_neg hc]
      have key : (conv.messages.length - chunk_size + (chunk_size - overlap) - 1 +
            (chunk_size - overlap)) / (chunk_size - overlap) =
          (conv.messages.length - chunk_size + (chunk_size - overlap) - 1) /
            (chunk_size - overlap) + 1 :=
        Nat.add_div_right _ (by omega)
      have e3 : conv.messages.length - overlap + (chunk_size - overlap) - 1 =
          conv.messages.length - chunk_size + (chunk_size - overlap) - 1 +
            (chunk_size - overlap) := by omega
      rw [e3, key]

/-- C1 witness: the amended count statement instantiated at a concrete
five-message conversation with `chunk_size = 3`, `overlap = 1`. -/
theorem chunk_count_amended_witness :
    0 < 1 ∧ 1 < 3 ∧
    (∃ chunks, chunk_conversation demoConv5 3 1 = Except.ok chunks ∧
      (demoConv5.messages.length = 0 → chunks.length = 0) ∧
      (0 < demoConv5.messages.length → demoConv5.messages.length ≤ 1 →
        chunks.length = 1) ∧
      (1 < demoConv5.messages.length →
        (chunks.length : ℤ) =
          ⌈((demoConv5.messages.length : ℚ) - (1 : ℚ)) /
            ((3 : ℚ) - (1 : ℚ))⌉)) :=
  ⟨Nat.one_pos, by omega, chunk_count_amended demoConv5 3 1 (by decide) (by decide)⟩

/-- C1 counterexample: a conversation with one message and
`chunk_size = 3`, `overlap = 1` — the code returns 1 chunk while the claimed
formula `⌈(n - overlap) / (chunk_size - overlap)⌉` gives 0. -/
theorem chunk_count_claim_counterexample :
    (chunk_conversation convOneMsg 3 1).map List.length = Except.ok 1 ∧
    ⌈((convOneMsg.messages.length : ℚ) - (1 : ℚ)) / ((3 : ℚ) - (1 : ℚ))⌉ = 0 ∧
    (1 : ℕ) ≠ 0 := by
  refine ⟨rfl, ?_, by decide⟩
  norm_num [convOneMsg]

/-- C3: for a nonempty conversation and valid parameters, the `j`-th chunk
covers `message_start_idx = j * (chunk_size - overlap)` and
`message_end_idx = min (start + chunk_size) n` (half-open); in particular any
five-message conversation with `chunk_size = 3`, `overlap = 1` yields
exactly the ranges `[0,3)` and `[2,5)`. -/
theorem chunk_window_bounds :
    (∀ (conv : Conversation) (chunk_size overlap : Nat),
        0 < overlap → overlap < chunk_size → 1 ≤ conv.messages.length →
        ∃ chunks, chunk_conversation conv chunk_size overlap = Except.ok chunks ∧
          ∀ j (hj : j < chunks.length),
            (chunks.get ⟨j, hj⟩).message_start_idx = j * (chunk_size - overlap) ∧
            (chunks.get ⟨j, hj⟩).message_end_idx =
              min (j * (chunk_size - overlap) + chunk_size)
                conv.messages.length) ∧
    (∀ conv : Conversation, conv.messages.length = 5 →
        ∃ chunks, chunk_conversation conv 3 1 = Except.ok chunks ∧
          chunks.map (fun ch => (ch.message_start_idx, ch.message_end_idx)) =
            [(0, 3), (2, 5)]) := by
  constructor
  · intro conv chunk_size overlap h1 h2 hn
    obtain ⟨chunks, hok, hlen, hget⟩ :=
      chunk_conversation_spec conv chunk_size overlap h2
    refine ⟨chunks, hok, ?_⟩
    intro j hj
    obtain ⟨hval, hbound⟩ := hget j hj
    constructor
    · rw [hval]
      rfl
    · rw [hval]
      show j * (chunk_size - overlap) +
          ((conv.messages.drop (j * (chunk_size - overlap))).take chunk_size).length = _
      rw [List.length_take, List.length_drop]
      omega
  · intro conv h5
    obtain ⟨chunks, hok, hlen, hget⟩ := chunk_conversation_spec conv 3 1 (by omega)
    refine ⟨chunks, hok, ?_⟩
    have hlen2 : chunks.length = 2 := by
      rw [hlen, if_neg (by omega), if_neg (by omega), h5]
    apply List.ext_get
    · simp [hlen2]
    · intro j hj1 hj2
      have hj : j < chunks.length := by simpa [hlen2] using hj1
      obtain ⟨hval, hbound⟩ := hget j hj
      have hjlt : j < 2 := by omega
      rw [List.get_map]
      interval_cases j
      · rw [hval]
        show ((0 : Nat) * (3 - 1), (0 * (3 - 1) +
          ((conv.messages.drop (0 * (3 - 1))).take 3).length)) = ((0 : Nat), (3 : Nat))
        rw [List.length_take, List.length_drop, h5]
        decide
      · rw [hval]
        show ((1 : Nat) * (3 - 1), (1 * (3 - 1) +
          ((conv.messages.drop (1 * (3 - 1))).take 3).length)) = ((2 : Nat), (5 : Nat))
        rw [List.length_take, List.length_drop, h5]
        decide

/-- C3 witness: the window statement instantiated at a concrete five-message
conversation with `chunk_size = 3`, `overlap = 1`. -/
theorem chunk_window_bounds_witness :
    (0 < 1 ∧ 1 < 3 ∧ 1 ≤ demoConv5.messages.length ∧
      (∃ chunks, chunk_conversation demoConv5 3 1 = Except.ok chunks ∧
        ∀ j (hj : j < chunks.length),
          (chunks.get ⟨j, hj⟩).message_start_idx = j * (3 - 1) ∧
          (chunks.get ⟨j, hj⟩).message_end_idx =
            min (j * (3 - 1) + 3) demoConv5.messages.length)) ∧
    (demoConv5.messages.length = 5 ∧
      ∃ chunks, chunk_conversation demoConv5 3 1 = Except.ok chunks ∧
        chunks.map (fun ch => (ch.message_start_idx, ch.message_end_idx)) =
          [(0, 3), (2, 5)]) :=
  ⟨⟨by decide, by decide, by decide,
      chunk_window_bounds.1 demoConv5 3 1 (by decide) (by decide) (by decide)⟩,
    ⟨rfl, chunk_window_bounds.2 demoConv5 rfl⟩⟩

/-- C10: calling `chunk_conversation` with `overlap = chunk_size` always
raises (`range(0, n, 0)` raises `ValueError` before any iteration, so also on
an empty message list); the precondition `overlap < chunk_size` is never
checked or reported as a usable error. -/
theorem chunk_zero_stride_raises (conv : Conversation) (chunk_size : Nat) :
    chunk_conversation conv chunk_size chunk_size =
      Except.error "range() arg 3 must not be zero" := by
  unfold chunk_conversation
  rw [if_pos rfl]

/-- C4 (corrected): the normalizer does not restrict roles to
user/assistant/system/unknown: the role of every normalized message is the
source `role` value when that key is present, else the `sender` value when
present, and `"unknown"` exactly when both keys are absent — unrecognized role
strings pass through unmodified. -/
theorem normalize_role_passthrough (now_ts now_iso : String)
    (raws : List RawConversation) :
    ∀ conv ∈ normalize_conversations now_ts now_iso raws,
      ∀ nm ∈ conv.messages,
        ∃ rc ∈ raws, ∃ rm ∈ rc.messages.getD (rc.chat_messages.getD []),
          nm.role = rm.role.getD (rm.sender.getD "unknown") := by
  intro conv hconv nm hnm
  unfold normalize_conversations at hconv
  obtain ⟨p, hp, rfl⟩ := List.mem_map.1 hconv
  have hrc : p.2 ∈ raws :=
    List.getElem?_mem (List.mem_enum_iff_getElem?.1 hp)
  refine ⟨p.2, hrc, ?_⟩
  simp only [normalizeConversation] at hnm
  obtain ⟨rm, hrm, rfl⟩ := List.mem_map.1 hnm
  exact ⟨rm, hrm, rfl⟩

/-- C4 witness: the passthrough statement instantiated at the normalization
scenario input of the specification. -/
theorem normalize_role_passthrough_witness :
    (⟨"conv_0_0", "iso", "Chat A", [⟨"human", "hi", ""⟩]⟩ : Conversation) ∈
        normalize_conversations "0" "iso" [rawChatA] ∧
    (⟨"human", "hi", ""⟩ : Message) ∈
        (⟨"conv_0_0", "iso", "Chat A", [⟨"human", "hi", ""⟩]⟩ : Conversation).messages ∧
    ∃ rc ∈ [rawChatA], ∃ rm ∈ rc.messages.getD (rc.chat_messages.getD []),
      (⟨"human", "hi", ""⟩ : Message).role = rm.role.getD (rm.sender.getD "unknown") :=
  ⟨by decide, by decide,
    normalize_role_passthrough "0" "iso" [rawChatA]
      ⟨"conv_0_0", "iso", "Chat A", [⟨"human", "hi", ""⟩]⟩ (by decide)
      ⟨"human", "hi", ""⟩ (by decide)⟩

/-- C4 counterexample: the scenario input with sender human and text hi
normalizes to a message whose role is the string human, which is none of
user, assistant, system, unknown. -/
theorem normalize_role_counterexample :
    (normalize_conversations "0" "iso" [rawChatA]).map
        (fun conv => conv.messages.map (fun m => m.role)) = [["human"]] ∧
    ¬("human" = "user" ∨ "human" = "assistant" ∨ "human" = "system" ∨
      "human" = "unknown") :=
  ⟨rfl, by decide⟩

/-- C8: a directory import returns exactly the concatenated conversations of
the files whose parse and normalization succeed, in glob order; a failing
file contributes nothing and never aborts the batch. -/
theorem directory_import_skips_bad_files (now_ts now_iso : String)
    (files : List (Except String FileData)) :
    fromDirectory now_ts now_iso files =
      (files.map (fun file =>
        match file with
        | .ok fd => normalize_conversations now_ts now_iso fd.resolve
        | .error _ => [])).flatten := by
  have key : ∀ (fs : List (Except String FileData)) (acc : List Conversation),
      fs.foldl (fun acc file =>
        match fromJsonExport now_ts now_iso file with
        | .ok convos => acc ++ convos
        | .error _ => acc) acc =
      acc ++ (fs.map (fun file =>
        match file with
        | .ok fd => normalize_conversations now_ts now_iso fd.resolve
        | .error _ => [])).flatten := by
    intro fs
    induction fs with
    | nil => intro acc; simp
    | cons f fs ih =>
      intro acc
      rw [List.foldl_cons, List.map_cons, List.flatten_cons]
      rcases f with e | fd
      · rw [ih]
        rfl
      · rw [ih]
        show (acc ++ normalize_conversations now_ts now_iso fd.resolve) ++ _ =
          acc ++ (normalize_conversations now_ts now_iso fd.resolve ++ _)
        rw [List.append_assoc]
  simpa [fromDirectory] using key files []

theorem upsertOne_length_of_mem (records : List StoredRecord) (r : StoredRecord)
    (h : ∃ s ∈ records, s.id = r.id) :
    (upsertOne records r).length = records.length := by
  have hc : records.any (fun s => s.id = r.id) = true := by
    simp only [List.any_eq_true, decide_eq_true_eq]
    exact h
  unfold upsertOne
  rw [if_pos hc, List.length_map]

theorem upsertOne_id_preserved (records : List StoredRecord) (r : StoredRecord)
    (i : String) (h : ∃ s ∈ records, s.id = i) :
    ∃ s ∈ upsertOne records r, s.id = i := by
  obtain ⟨s0, hs0, hid⟩ := h
  unfold upsertOne
  by_cases hc : records.any (fun s => s.id = r.id) = true
  · rw [if_pos hc]
    by_cases he : s0.id = r.id
    · refine ⟨r, ?_, by rw [← he]; exact hid⟩
      exact List.mem_map.2 ⟨s0, hs0, by rw [if_pos he]⟩
    · refine ⟨s0, ?_, hid⟩
      exact List.mem_map.2 ⟨s0, hs0, by rw [if_neg he]⟩
  · rw [if_neg hc]
    exact ⟨s0, List.mem_append_left _ hs0, hid⟩

theorem upsertOne_id_self (records : List StoredRecord) (r : StoredRecord) :
    ∃ s ∈ upsertOne records r, s.id = r.id := by
  unfold upsertOne
  by_cases hc : records.any (fun s => s.id = r.id) = true
  · rw [if_pos hc]
    obtain ⟨s0, hs0, he⟩ : ∃ s ∈ records, s.id = r.id := by
      simpa only [List.any_eq_true, decide_eq_true_eq] using hc
    exact ⟨r, List.mem_map.2 ⟨s0, hs0, by rw [if_pos he]⟩, rfl⟩
  · rw [if_neg hc]
    exact ⟨r, List.mem_append_right _ (List.mem_singleton.2 rfl), rfl⟩

theorem foldl_upsert_id_preserved (recs : List StoredRecord) :
    ∀ (records : List StoredRecord) (i : String), (∃ s ∈ records, s.id = i) →
      ∃ s ∈ recs.foldl upsertOne records, s.id = i := by
  induction recs with
  | nil => intro records i h; simpa using h
  | cons a rs ih =>
    intro records i h
    rw [List.foldl_cons]
    exact ih _ i (upsertOne_id_preserved records a i h)

theorem foldl_upsert_id_mem (recs : List StoredRecord) :
    ∀ (records : List StoredRecord) (r : StoredRecord), r ∈ recs →
      ∃ s ∈ recs.foldl upsertOne records, s.id = r.id := by
  induction recs with
  | nil => intro _ _ h; simp at h
  | cons a rs ih =>
    intro records r hr
    rw [List.foldl_cons]
    rcases List.mem_cons.1 hr with rfl | hr2
    · exact foldl_upsert_id_preserved rs _ r.id (upsertOne_id_self records r)
    · exact ih _ r hr2

theorem foldl_upsert_length (recs : List StoredRecord) :
    ∀ records : List StoredRecord, (∀ r ∈ recs, ∃ s ∈ records, s.id = r.id) →
      (recs.foldl upsertOne records).length = records.length := by
  induction recs with
  | nil => intro records h; rfl
  | cons a rs ih =>
    intro records h
    rw [List.foldl_cons]
    have h1 : ∀ r ∈ rs, ∃ s ∈ upsertOne records a, s.id = r.id := fun r hr =>
      upsertOne_id_preserved records a r.id (h r (List.mem_cons_of_mem a hr))
    rw [ih _ h1, upsertOne_length_of_mem records a (h a (List.mem_cons_self a rs))]

/-- C2: importing the identical conversation set twice (the chunking and the
record ids being deterministic in the conversation ids) leaves the same total
record count as importing once — each record of the second import carries the
deterministic id, conversation id plus chunk suffix, already present after
the first import, so the upsert overwrites instead of duplicating. -/
theorem add_conversations_idempotent_count (embed : String → List ℚ)
    (store : VectorStore) (conversations : List Conversation) :
    (get_stats (add_conversations embed
        (add_conversations embed store conversations).1 conversations).1).total_chunks =
      (get_stats (add_conversations embed store conversations).1).total_chunks ∧
    ∀ ch : Chunk, (chunkRecord embed ch).id =
      ch.conversation_id ++ "_chunk_" ++ toString ch.chunk_index := by
  constructor
  · unfold get_stats add_conversations Collection.count Collection.upsert
    simp only
    apply foldl_upsert_length
    intro r hr
    exact foldl_upsert_id_mem _ _ r hr
  · intro ch
    rfl

/-- C5: `search` returns at most `limit` results, ordered best first by
ascending distance (smaller distance = more similar), and the relevance score
surfaced by the CLI equals `1 - distance`. -/
theorem search_contract (embed : String → List ℚ) (dist : List ℚ → List ℚ → ℚ)
    (store : VectorStore) (query : String) (limit : Nat) :
    (search embed dist store query limit).length ≤ limit ∧
    (search embed dist store query limit).Pairwise
      (fun a b => a.distance ≤ b.distance) ∧
    ∀ r ∈ search embed dist store query limit,
      relevanceScore r = 1 - r.distance := by
  refine ⟨?_, ?_, ?_⟩
  · unfold search Collection.query
    rw [List.length_map, List.length_take]
    exact min_le_left _ _
  · unfold search Collection.query
    rw [List.pairwise_map]
    haveI ht : IsTotal (StoredRecord × ℚ) (fun a b => a.2 ≤ b.2) :=
      ⟨fun a b => le_total a.2 b.2⟩
    haveI htr : IsTrans (StoredRecord × ℚ) (fun a b => a.2 ≤ b.2) :=
      ⟨fun a b c hab hbc => le_trans hab hbc⟩
    have hsorted : List.Sorted (fun a b : StoredRecord × ℚ => a.2 ≤ b.2)
        ((store.collection.records.map
          (fun r => (r, dist (embed query) r.embedding))).insertionSort
            (fun a b => a.2 ≤ b.2)) :=
      List.sorted_insertionSort _ _
    exact hsorted.sublist (List.take_sublist _ _)
  · intro r hr
    rfl

/-- C6: querying an empty collection returns the empty result list; `search`
is a total function of the model, so no error is raised. -/
theorem search_empty_collection (embed : String → List ℚ)
    (dist : List ℚ → List ℚ → ℚ) (store : VectorStore) (query : String)
    (limit : Nat) (h : store.collection.records = []) :
    search embed dist store query limit = [] := by
  unfold search Collection.query
  rw [h]
  simp

/-- C6 witness: the empty-collection search instantiated at a concrete empty
store. -/
theorem search_empty_collection_witness :
    emptyStore.collection.records = [] ∧
    search demoEmbed demoDist emptyStore "anything" 5 = [] :=
  ⟨rfl, search_empty_collection demoEmbed demoDist emptyStore "anything" 5 rfl⟩

/-- C7: `reset` on any store state — in particular after any sequence of
`add_conversations` calls — leaves an empty collection recreated under the
same name: `stats` reports `total_chunks = 0`. -/
theorem reset_empties_collection :
    (∀ store : VectorStore,
      get_stats (reset store) = ⟨0, store.collection_name, store.db_path⟩) ∧
    (∀ (embed : String → List ℚ) (store : VectorStore)
        (conversations : List Conversation),
      (get_stats (reset
        (add_conversations embed store conversations).1)).total_chunks = 0) :=
  ⟨fun _ => rfl, fun _ _ _ => rfl⟩


theorem hexVal_hexDigitChar (x : Nat) (h : x < 16) :
    hexVal (hexDigitChar x) = some x := by
  interval_cases x <;> decide

theorem hex4_encode (t : Nat) (h : t < 32) :
    hex4 '0' '0' (hexDigitChar (t / 16)) (hexDigitChar (t % 16)) = some t := by
  unfold hex4
  rw [show hexVal '0' = some 0 from rfl]
  rw [hexVal_hexDigitChar (t / 16) (by omega), hexVal_hexDigitChar (t % 16) (by omega)]
  show some (((0 * 16 + 0) * 16 + t / 16) * 16 + t % 16) = some t
  congr 1
  omega

theorem parseStringBody_escapeChar (c : Char) (tail : List Char) :
    parseStringBody (escapeChar c ++ tail) =
      (parseStringBody tail).map (fun p => (c :: p.1, p.2)) := by
  by_cases h1 : c = '"'
  · subst h1
    show parseStringBody ('\\' :: '"' :: tail) = _
    rw [parseStringBody.eq_def]
    simp
  by_cases h2 : c = '\\'
  · subst h2
    show parseStringBody ('\\' :: '\\' :: tail) = _
    rw [parseStringBody.eq_def]
    simp
  by_cases h3 : c = '\n'
  · subst h3
    show parseStringBody ('\\' :: 'n' :: tail) = _
    rw [parseStringBody.eq_def]
    simp
  by_cases h4 : c = '\t'
  · subst h4
    show parseStringBody ('\\' :: 't' :: tail) = _
    rw [parseStringBody.eq_def]
    simp
  by_cases h5 : c = '\r'
  · subst h5
    show parseStringBody ('\\' :: 'r' :: tail) = _
    rw [parseStringBody.eq_def]
    simp
  by_cases h6 : c.toNat = 8
  · have hb : escapeChar c = ['\\', 'b'] := by
      unfold escapeChar
      rw [if_neg h1, if_neg h2, if_neg h3, if_neg h4, if_neg h5, if_pos h6]
    rw [hb]
    show parseStringBody ('\\' :: 'b' :: tail) = _
    rw [parseStringBody.eq_def]
    have hc : Char.ofNat 8 = c := by rw [← h6, Char.ofNat_toNat]
    simp
    rw [hc]
  by_cases h7 : c.toNat = 12
  · have hb : escapeChar c = ['\\', 'f'] := by
      unfold escapeChar
      rw [if_neg h1, if_neg h2, if_neg h3, if_neg h4, if_neg h5, if_neg h6, if_pos h7]
    rw [hb]
    show parseStringBody ('\\' :: 'f' :: tail) = _
    rw [parseStringBody.eq_def]
    have hc : Char.ofNat 12 = c := by rw [← h7, Char.ofNat_toNat]
    simp
    rw [hc]
  by_cases h8 : c.toNat < 32
  · have hb : escapeChar c =
        ['\\', 'u', '0', '0', hexDigitChar (c.toNat / 16), hexDigitChar (c.toNat % 16)] := by
      unfold escapeChar
      rw [if_neg h1, if_neg h2, if_neg h3, if_neg h4, if_neg h5, if_neg h6, if_neg h7,
        if_pos h8]
    rw [hb]
    show parseStringBody ('\\' :: 'u' :: '0' :: '0' ::
      hexDigitChar (c.toNat / 16) :: hexDigitChar (c.toNat % 16) :: tail) = _
    rw [parseStringBody.eq_def]
    simp only [reduceIte, List.cons.injEq]
    rw [hex4_encode c.toNat h8]
    have hc : Char.ofNat c.toNat = c := Char.ofNat_toNat c
    simp [hc]
  · have hb : escapeChar c = [c] := by
      unfold escapeChar
      rw [if_neg h1, if_neg h2, if_neg h3, if_neg h4, if_neg h5, if_neg h6, if_neg h7,
        if_neg h8]
    rw [hb]
    show parseStringBody (c :: tail) = _
    rw [parseStringBody.eq_def]
    simp [h1, h2]


theorem parseStringBody_encode (cs : List Char) (rest : List Char) :
    parseStringBody ((cs.map escapeChar).flatten ++ ('"' :: rest)) = some (cs, rest) := by
  induction cs with
  | nil =>
    show parseStringBody ('"' :: rest) = some ([], rest)
    rw [parseStringBody.eq_def]
    simp
  | cons c cs ih =>
    show parseStringBody ((escapeChar c ++ (cs.map escapeChar).flatten) ++ '"' :: rest) = _
    rw [List.append_assoc, parseStringBody_escapeChar, ih]
    rfl

theorem parseJString_encode (s rest : List Char) :
    parseJString (encodeStringCore s ++ rest) = some (s, rest) := by
  have e : encodeStringCore s ++ rest =
      '"' :: ((s.map escapeChar).flatten ++ ('"' :: rest)) := by
    unfold encodeStringCore
    simp
  rw [e]
  show parseStringBody ((s.map escapeChar).flatten ++ ('"' :: rest)) = some (s, rest)
  exact parseStringBody_encode s rest

theorem expectChars_append (pat s : List Char) : expectChars pat (pat ++ s) = some s := by
  induction pat with
  | nil => rfl
  | cons c cs ih =>
    show expectChars (c :: cs) (c :: (cs ++ s)) = some s
    rw [expectChars.eq_def]
    simp [ih]

theorem parseMessage_encode (m : Message) (rest : List Char) :
    parseMessageCore (encodeMessageCore m ++ rest) = some (m, rest) := by
  have e : encodeMessageCore m ++ rest =
      ('\x7b' :: "\"role\": ".data) ++ (encodeStringCore m.role.data ++
        (", \"content\": ".data ++ (encodeStringCore m.content.data ++
          (", \"timestamp\": ".data ++ (encodeStringCore m.timestamp.data ++
            ('\x7d' :: rest)))))) := by
    unfold encodeMessageCore
    simp
  have h7 : expectChars ['\x7d'] ('\x7d' :: rest) = some rest :=
    expectChars_append ['\x7d'] rest
  unfold parseMessageCore
  rw [e]
  simp only [expectChars_append, parseJString_encode, h7, Option.bind_eq_bind,
    Option.some_bind]

theorem encodeItemsCore_length (ms : List Message) :
    ms.length ≤ (encodeItemsCore ms).length := by
  induction ms with
  | nil => simp [encodeItemsCore]
  | cons m ms ih =>
    show ms.length + 1 ≤ (',' :: ' ' :: (encodeMessageCore m ++ encodeItemsCore ms)).length
    simp only [List.length_cons, List.length_append]
    omega

theorem parseItems_rbracket (f : Nat) (rest : List Char) :
    parseItems (f + 1) (']' :: rest) = some ([], rest) := by
  rw [parseItems.eq_def]
  simp

theorem parseItems_comma (f : Nat) (x : List Char) :
    parseItems (f + 1) (',' :: ' ' :: x) =
      (parseMessageCore x).bind (fun p =>
        (parseItems f p.2).bind (fun q => some (p.1 :: q.1, q.2))) := by
  rw [parseItems.eq_def]
  simp only [Option.bind_eq_bind]

theorem parseItems_encode (ms : List Message) :
    ∀ (fuel : Nat) (rest : List Char), ms.length < fuel →
      parseItems fuel (encodeItemsCore ms ++ rest) = some (ms, rest) := by
  induction ms with
  | nil =>
    intro fuel rest hf
    obtain ⟨f, rfl⟩ : ∃ f, fuel = f + 1 := ⟨fuel - 1, by omega⟩
    show parseItems (f + 1) (']' :: rest) = some ([], rest)
    exact parseItems_rbracket f rest
  | cons m ms ih =>
    intro fuel rest hf
    obtain ⟨f, rfl⟩ : ∃ f, fuel = f + 1 := ⟨fuel - 1, by omega⟩
    show parseItems (f + 1)
      (',' :: ' ' :: ((encodeMessageCore m ++ encodeItemsCore ms) ++ rest)) = some (m :: ms, rest)
    rw [parseItems_comma, List.append_assoc, parseMessage_encode, Option.some_bind,
      ih f rest (by simpa using hf), Option.some_bind]

theorem json_dumps_loads (ms : List Message) :
    json_loads_messages (json_dumps_messages ms) = some ms := by
  show parseMessagesCore (encodeMessagesCore ms) = some ms
  cases ms with
  | nil => rfl
  | cons m ms =>
    show parseMessagesCore ('[' :: (encodeMessageCore m ++ encodeItemsCore ms)) = _
    have hcons : encodeMessageCore m = '\x7b' :: ("\"role\": ".data ++
        encodeStringCore m.role.data ++ ", \"content\": ".data ++
        encodeStringCore m.content.data ++ ", \"timestamp\": ".data ++
        encodeStringCore m.timestamp.data ++ ['\x7d']) := rfl
    unfold parseMessagesCore
    rw [if_neg (by
      intro hEq
      rw [hcons] at hEq
      simp at hEq)]
    show (parseMessageCore (encodeMessageCore m ++ encodeItemsCore ms)).bind _ = _
    rw [show (encodeMessageCore m ++ encodeItemsCore ms : List Char) =
      encodeMessageCore m ++ (encodeItemsCore ms ++ []) from by simp]
    rw [parseMessage_encode, Option.some_bind]
    show (parseItems ((encodeItemsCore ms ++ []).length + 1) (encodeItemsCore ms ++ [])).bind _ = _
    rw [parseItems_encode ms _ []
      (by have := encodeItemsCore_length ms; simp only [List.append_nil]; omega),
      Option.some_bind]
    rfl

theorem upsert_mem (recs : List StoredRecord) :
    ∀ (records : List StoredRecord) (x : StoredRecord),
      x ∈ recs.foldl upsertOne records → x ∈ records ∨ x ∈ recs := by
  induction recs with
  | nil => intro records x h; exact Or.inl h
  | cons a rs ih =>
    intro records x h
    rcases ih _ x h with h1 | h1
    · unfold upsertOne at h1
      by_cases hc : records.any (fun s => s.id = a.id) = true
      · rw [if_pos hc] at h1
        obtain ⟨s0, hs0, he⟩ := List.mem_map.1 h1
        by_cases hid : s0.id = a.id
        · rw [if_pos hid] at he
          right
          rw [← he]
          exact List.mem_cons_self a rs
        · rw [if_neg hid] at he
          rw [← he]
          exact Or.inl hs0
      · rw [if_neg hc] at h1
        rcases List.mem_append.1 h1 with h2 | h2
        · exact Or.inl h2
        · right
          rw [List.mem_singleton.1 h2]
          exact List.mem_cons_self a rs
    · exact Or.inr (List.mem_cons_of_mem a h1)

/-- C9: every search result over a store populated by `add_conversations`
from an empty collection carries a `messages` field that deserializes back to
exactly the message slice of the chunk that produced its record (the slice is
serialized into `full_chunk_data` on add and parsed back on search), together
with the text and conversation id of that chunk. -/
theorem search_messages_roundtrip (embed : String → List ℚ)
    (dist : List ℚ → List ℚ → ℚ) (query : String) (limit : Nat)
    (conversations : List Conversation) :
    ∀ r ∈ search embed dist
        (add_conversations embed emptyStore conversations).1 query limit,
      ∃ conv ∈ conversations, ∃ ch ∈ chunkRun conv 3 1,
        r.messages = some ch.messages ∧ r.text = ch.text ∧
        r.conversation_id = ch.conversation_id := by
  intro r hr
  unfold search at hr
  obtain ⟨rd, hrd, rfl⟩ := List.mem_map.1 hr
  unfold Collection.query at hrd
  have h2 := List.mem_of_mem_take hrd
  have h3 := (List.mem_insertionSort _).1 h2
  obtain ⟨rec, hrec, rfl⟩ := List.mem_map.1 h3
  have h4 : rec ∈ emptyStore.collection.records ∨
      rec ∈ ((conversations.map (fun conv => chunkRun conv 3 1)).flatten.map
        (chunkRecord embed)) :=
    upsert_mem _ _ rec hrec
  rcases h4 with h4 | h4
  · simp [emptyStore] at h4
  · obtain ⟨ch, hch, rfl⟩ := List.mem_map.1 h4
    obtain ⟨l, hl, hchl⟩ := List.mem_flatten.1 hch
    obtain ⟨conv, hconv, rfl⟩ := List.mem_map.1 hl
    refine ⟨conv, hconv, ch, hchl, ?_, rfl, rfl⟩
    show json_loads_messages (json_dumps_messages ch.messages) = some ch.messages
    exact json_dumps_loads ch.messages


set_option maxRecDepth 4000 in
/-- C9 witness: the round trip instantiated at a concrete five-message
conversation and a concrete embedding/distance model. -/
theorem search_messages_roundtrip_witness :
    ((⟨"User: m0\n\nAssistant: m1\n\nUser: m2", "conv5", "Demo",
        "2024-01-01T00:00:00Z", 0,
        some [⟨"user", "m0", "t0"⟩, ⟨"assistant", "m1", "t1"⟩,
          ⟨"user", "m2", "t2"⟩]⟩ : SearchResult) ∈
      search demoEmbed demoDist
        (add_conversations demoEmbed emptyStore [demoConv5]).1 "q" 1) ∧
    (∃ conv ∈ [demoConv5], ∃ ch ∈ chunkRun conv 3 1,
      (⟨"User: m0\n\nAssistant: m1\n\nUser: m2", "conv5", "Demo",
        "2024-01-01T00:00:00Z", 0,
        some [⟨"user", "m0", "t0"⟩, ⟨"assistant", "m1", "t1"⟩,
          ⟨"user", "m2", "t2"⟩]⟩ : SearchResult).messages = some ch.messages ∧
      (⟨"User: m0\n\nAssistant: m1\n\nUser: m2", "conv5", "Demo",
        "2024-01-01T00:00:00Z", 0,
        some [⟨"user", "m0", "t0"⟩, ⟨"assistant", "m1", "t1"⟩,
          ⟨"user", "m2", "t2"⟩]⟩ : SearchResult).text = ch.text ∧
      (⟨"User: m0\n\nAssistant: m1\n\nUser: m2", "conv5", "Demo",
        "2024-01-01T00:00:00Z", 0,
        some [⟨"user", "m0", "t0"⟩, ⟨"assistant", "m1", "t1"⟩,
          ⟨"user", "m2", "t2"⟩]⟩ : SearchResult).conversation_id =
        ch.conversation_id) := by
  have hmem : (⟨"User: m0\n\nAssistant: m1\n\nUser: m2", "conv5", "Demo",
      "2024-01-01T00:00:00Z", 0,
      some [⟨"user", "m0", "t0"⟩, ⟨"assistant", "m1", "t1"⟩,
        ⟨"user", "m2", "t2"⟩]⟩ : SearchResult) ∈
      search demoEmbed demoDist
        (add_conversations demoEmbed emptyStore [demoConv5]).1 "q" 1 := by
    have he : search demoEmbed demoDist
        (add_conversations demoEmbed emptyStore [demoConv5]).1 "q" 1 =
      [⟨"User: m0\n\nAssistant: m1\n\nUser: m2", "conv5", "Demo",
        "2024-01-01T00:00:00Z", 0,
        some [⟨"user", "m0", "t0"⟩, ⟨"assistant", "m1", "t1"⟩,
          ⟨"user", "m2", "t2"⟩]⟩] := rfl
    rw [he]
    exact List.mem_singleton.2 rfl
  exact ⟨hmem,
    search_messages_roundtrip demoEmbed demoDist "q" 1 [demoConv5] _ hmem⟩
end ConvVecDB
